import Mathlib

/-!
Shallow embedding of the editing core of the `home_project` vector-graphics
editor: the document schema (`src/editor/schema.ts`), the command layer and
history manager (`src/editor/commands/index.ts`), and the `DesignEditor`
mutation API (the `DesignEditor` source file).  JavaScript numbers are
modelled as `ℚ`, JavaScript string-keyed objects as insertion-ordered
association lists, `undefined`/`null`/value distinctions as `Option` or a
three-valued `Js3`, and a thrown `TypeError` as `Except.error`.
-/

/-! ## String-keyed records (JavaScript objects)

An id-keyed JavaScript object is modelled as an insertion-ordered
association list.  `recSet` mirrors the object-spread update
`{...m, [k]: v}`: an existing key keeps its position, a new key is
appended.  `recRemoveAll` mirrors
`Object.fromEntries(Object.entries(m).filter(([id]) => !ks.includes(id)))`.
-/

abbrev Rec (α : Type) := List (String × α)

def recGet {α : Type} (m : Rec α) (k : String) : Option α :=
  (m.find? (fun p => p.1 == k)).map Prod.snd

def recHas {α : Type} (m : Rec α) (k : String) : Bool :=
  m.any (fun p => p.1 == k)

def recSet {α : Type} (m : Rec α) (k : String) (v : α) : Rec α :=
  if recHas m k then
    m.map (fun p => if p.1 == k then (k, v) else p)
  else
    m ++ [(k, v)]

def recSetAll {α : Type} (m : Rec α) (kvs : List (String × α)) : Rec α :=
  kvs.foldl (fun acc kv => recSet acc kv.1 kv.2) m

def recRemoveAll {α : Type} (m : Rec α) (ks : List String) : Rec α :=
  m.filter (fun p => ¬ ks.contains p.1)

/-- Modelled from the spec: the shared `uniqued` helper (its utils module is
not among the provided sources) deduplicates a list of ids preserving first
occurrences, per §4.2 "deduplicates requested ids". -/
def uniqued (xs : List String) : List String :=
  xs.foldl (fun acc x => if acc.contains x then acc else acc ++ [x]) []

/-- Modelled from the spec: the shared `compactMap` helper (its utils module
is not among the provided sources) maps `f` over the list and drops `null`
results. -/
def compactMap {α β : Type} (xs : List α) (f : α → Option β) : List β :=
  xs.filterMap f

/-- A three-valued JavaScript argument: absent (`undefined`), explicit
`null`, or a value. -/
inductive Js3 (α : Type) where
  | undef
  | null
  | val (a : α)
deriving DecidableEq, Repr

def Js3.isNull {α : Type} : Js3 α → Bool
  | .null => true
  | _ => false

def Js3.isUndef {α : Type} : Js3 α → Bool
  | .undef => true
  | _ => false

/-! ## Document schema (`src/editor/schema.ts`) -/

structure Bounds where
  left : ℚ
  top : ℚ
  width : ℚ
  height : ℚ
deriving DecidableEq, Repr

structure ShapeViewBox where
  minX : ℚ
  minY : ℚ
  width : ℚ
  height : ℚ
deriving DecidableEq, Repr

structure ShapeStroke where
  color : String
  weight : ℚ
  dasharray : Option (ℚ × ℚ) := none
deriving DecidableEq, Repr

structure ShapeFill where
  color : String
deriving DecidableEq, Repr

structure ShapePath where
  d : String
  stroke : Option ShapeStroke := none
  fill : Option ShapeFill := none
deriving DecidableEq, Repr

inductive FontWeight where
  | normal
  | bold
deriving DecidableEq, Repr

structure TextElement where
  id : String
  bounds : Bounds
  content : String
  fontSize : ℚ
  color : String
  fontWeight : FontWeight
  fontFamily : String
deriving DecidableEq, Repr

structure ImageElement where
  id : String
  bounds : Bounds
  src : String
  opacity : Option ℚ := none
deriving DecidableEq, Repr

structure ShapeDef where
  id : String
  bounds : Bounds
  transparency : Option ℚ := none
  paths : List ShapePath
  viewBox : ShapeViewBox
  rememberedStroke : Option ShapeStroke := none
  rememberedFill : Option ShapeFill := none
deriving DecidableEq, Repr

structure DesignAttributes where
  width : ℚ
  height : ℚ
deriving DecidableEq, Repr

structure DesignValue where
  shapes : Rec ShapeDef
  texts : Rec TextElement
  images : Rec ImageElement
  attributes : DesignAttributes
deriving DecidableEq, Repr

structure Selection where
  id : String
deriving DecidableEq, Repr

/-! ## `structuredClone` as a structural deep copy

`BaseCommand` stores `structuredClone(previousValue)` / `structuredClone(nextValue)`
and `execute()` / `undo()` return `structuredClone` of the stored snapshot.  A
deep copy is modelled as a structural rebuild of the whole document tree; the
lemmas below show it is equal (deep-equal) to its argument, which is exactly
the freshness guarantee observable in a pure model.
-/

def ShapeStroke.clone (s : ShapeStroke) : ShapeStroke :=
  ⟨s.color, s.weight, s.dasharray.map (fun pr => (pr.1, pr.2))⟩

def ShapeFill.clone (f : ShapeFill) : ShapeFill :=
  ⟨f.color⟩

def ShapePath.clone (p : ShapePath) : ShapePath :=
  ⟨p.d, p.stroke.map ShapeStroke.clone, p.fill.map ShapeFill.clone⟩

def ShapeDef.clone (s : ShapeDef) : ShapeDef :=
  ⟨s.id, ⟨s.bounds.left, s.bounds.top, s.bounds.width, s.bounds.height⟩,
   s.transparency, s.paths.map ShapePath.clone,
   ⟨s.viewBox.minX, s.viewBox.minY, s.viewBox.width, s.viewBox.height⟩,
   s.rememberedStroke.map ShapeStroke.clone, s.rememberedFill.map ShapeFill.clone⟩

def TextElement.clone (t : TextElement) : TextElement :=
  ⟨t.id, ⟨t.bounds.left, t.bounds.top, t.bounds.width, t.bounds.height⟩,
   t.content, t.fontSize, t.color, t.fontWeight, t.fontFamily⟩

def ImageElement.clone (i : ImageElement) : ImageElement :=
  ⟨i.id, ⟨i.bounds.left, i.bounds.top, i.bounds.width, i.bounds.height⟩,
   i.src, i.opacity⟩

def deepClone (v : DesignValue) : DesignValue :=
  ⟨v.shapes.map (fun p => (p.1, p.2.clone)),
   v.texts.map (fun p => (p.1, p.2.clone)),
   v.images.map (fun p => (p.1, p.2.clone)),
   ⟨v.attributes.width, v.attributes.height⟩⟩

/-! ## Command layer (`src/editor/commands/index.ts`) -/

/-- A `BaseCommand`: deep copies of the previous and next document plus a
human-readable description. -/
structure Command where
  previousValue : DesignValue
  nextValue : DesignValue
  description : String
deriving DecidableEq, Repr

/-- The `BaseCommand` constructor: `structuredClone`s both snapshots. -/
def mkBaseCommand (previousValue nextValue : DesignValue) (description : String) : Command :=
  ⟨deepClone previousValue, deepClone nextValue, description⟩

/-- `execute()`: returns a fresh deep copy of the next snapshot. -/
def Command.execRes (c : Command) : DesignValue :=
  deepClone c.nextValue

/-- `undo()`: returns a fresh deep copy of the previous snapshot. -/
def Command.undoRes (c : Command) : DesignValue :=
  deepClone c.previousValue

def mkCreateShapeCommand (previousValue nextValue : DesignValue) (shapeId : String) : Command :=
  mkBaseCommand previousValue nextValue ("Create shape " ++ shapeId)

def mkDeleteShapeCommand (previousValue nextValue : DesignValue) (shapeIds : List String) : Command :=
  mkBaseCommand previousValue nextValue
    (match shapeIds with
     | [id] => "Delete shape " ++ id
     | _ => "Delete " ++ toString shapeIds.length ++ " shapes")

def mkUpdateShapeCommand (previousValue nextValue : DesignValue) (shapeIds : List String)
    (operation : String) : Command :=
  mkBaseCommand previousValue nextValue
    (match shapeIds with
     | [id] => operation ++ " shape " ++ id
     | _ => operation ++ " " ++ toString shapeIds.length ++ " shapes")

/-! ## History manager (`src/editor/commands/index.ts`) -/

structure HistoryManager where
  history : List Command
  currentIndex : Int
deriving DecidableEq, Repr

def HistoryManager.empty : HistoryManager := ⟨[], -1⟩

def maxHistorySize : Nat := 50

/-- `executeCommand`: truncate after the cursor, append, evict index 0 when
over capacity (keeping the cursor), otherwise advance the cursor; return
`command.execute()`. -/
def HistoryManager.executeCommand (m : HistoryManager) (command : Command) :
    HistoryManager × DesignValue :=
  let h1 := m.history.take (m.currentIndex + 1).toNat
  let h2 := h1 ++ [command]
  if h2.length > maxHistorySize then
    (⟨h2.drop 1, m.currentIndex⟩, command.execRes)
  else
    (⟨h2, m.currentIndex + 1⟩, command.execRes)

def HistoryManager.canUndo (m : HistoryManager) : Bool :=
  m.currentIndex ≥ 0

def HistoryManager.canRedo (m : HistoryManager) : Bool :=
  m.currentIndex < (m.history.length : Int) - 1

/-- `undo()`: boundary violation returns the `null` sentinel; otherwise
return the cursor command's previous-snapshot copy and decrement the cursor.
(When the cursor is in range — the invariant every caller maintains — the
lookup succeeds; an out-of-range cursor would be a crash in the source.) -/
def HistoryManager.undo (m : HistoryManager) : HistoryManager × Option DesignValue :=
  if m.canUndo then
    (⟨m.history, m.currentIndex - 1⟩,
     (m.history[m.currentIndex.toNat]?).map Command.undoRes)
  else
    (m, none)

/-- `redo()`: boundary violation returns the `null` sentinel; otherwise
increment the cursor and return that command's next-snapshot copy. -/
def HistoryManager.redo (m : HistoryManager) : HistoryManager × Option DesignValue :=
  if m.canRedo then
    (⟨m.history, m.currentIndex + 1⟩,
     (m.history[(m.currentIndex + 1).toNat]?).map Command.execRes)
  else
    (m, none)

def HistoryManager.clear (_ : HistoryManager) : HistoryManager := HistoryManager.empty

/-- The cursor invariant maintained by every history state reachable from
`HistoryManager.empty`. -/
abbrev HistoryManager.WellFormed (m : HistoryManager) : Prop :=
  -1 ≤ m.currentIndex ∧ m.currentIndex < (m.history.length : Int)

/-! ## Document store state and the `DesignEditor` mutation API -/

structure EditorState where
  value : DesignValue
  selection : Option Selection
  canUndo : Bool
  canRedo : Bool
deriving DecidableEq, Repr

structure DesignEditor where
  stateStore : EditorState
  historyManager : HistoryManager
deriving DecidableEq, Repr

/-- The `DesignEditor` constructor. -/
def DesignEditor.create (value : DesignValue) : DesignEditor :=
  ⟨⟨value, none, false, false⟩, HistoryManager.empty⟩

/-- `#cleanUndefinedValues` recursively removes object keys holding
`undefined` before a store write.  In the typed model an absent optional
field is already `none` rather than a key holding `undefined`, so the pass
is a structural rebuild that leaves the document unchanged
(`cleanUndefinedValues_eq`). -/
def cleanUndefinedValues (v : DesignValue) : DesignValue := deepClone v

def DesignEditor.setSelection (ed : DesignEditor) (newSelection : Option Selection) : DesignEditor :=
  ⟨{ed.stateStore with selection := newSelection}, ed.historyManager⟩

/-- `undo()`: if the history returns a snapshot (always truthy when
non-null), replace the document, clear the selection and refresh
`canUndo`/`canRedo`; otherwise do nothing. -/
def DesignEditor.undo (ed : DesignEditor) : DesignEditor :=
  let p := ed.historyManager.undo
  match p.2 with
  | some previousValue =>
      ⟨⟨previousValue, none, p.1.canUndo, p.1.canRedo⟩, p.1⟩
  | none => ed

/-- `redo()`: symmetric to `undo()`. -/
def DesignEditor.redo (ed : DesignEditor) : DesignEditor :=
  let p := ed.historyManager.redo
  match p.2 with
  | some nextValue =>
      ⟨⟨nextValue, none, p.1.canUndo, p.1.canRedo⟩, p.1⟩
  | none => ed

def DesignEditor.getShapeBoundsInCenter (size : ℚ × ℚ) (value : DesignValue) : Bounds :=
  ⟨value.attributes.width / 2 - size.1 / 2,
   value.attributes.height / 2 - size.2 / 2,
   size.1, size.2⟩

structure CreateShapePayload where
  left : Option ℚ := none
  top : Option ℚ := none
  width : ℚ
  height : ℚ
  viewBox : ShapeViewBox
  paths : List ShapePath
deriving DecidableEq, Repr

/-- The shape literal `createShape` inserts: centred bounds, each coordinate
overridden by `...(payload.left ? {left} : null)` — JavaScript truthiness,
so a supplied coordinate `0` is falsy and the centred coordinate is kept. -/
def DesignEditor.newShapeOf (previousValue : DesignValue) (nodeId : String)
    (payload : CreateShapePayload) : ShapeDef :=
  let center := DesignEditor.getShapeBoundsInCenter (payload.width, payload.height) previousValue
  let l := match payload.left with
    | some x => if x ≠ 0 then x else center.left
    | none => center.left
  let t := match payload.top with
    | some x => if x ≠ 0 then x else center.top
    | none => center.top
  { id := nodeId,
    bounds := ⟨l, t, center.width, center.height⟩,
    paths := payload.paths,
    viewBox := ⟨payload.viewBox.minX, payload.viewBox.minY,
                payload.viewBox.width, payload.viewBox.height⟩ }

/-- `createShape`: the generated `crypto.randomUUID()` is passed in as
`nodeId`. -/
def DesignEditor.createShape (ed : DesignEditor) (nodeId : String)
    (payload : CreateShapePayload) : DesignEditor × String :=
  let previousValue := ed.stateStore.value
  let shape := DesignEditor.newShapeOf previousValue nodeId payload
  let nextValue := {previousValue with shapes := recSet previousValue.shapes nodeId shape}
  let command := mkCreateShapeCommand previousValue nextValue nodeId
  let p := ed.historyManager.executeCommand command
  (⟨⟨p.2, some ⟨nodeId⟩, p.1.canUndo, p.1.canRedo⟩, p.1⟩, nodeId)

structure CreateTextPayload where
  left : ℚ
  top : ℚ
  content : String
  fontSize : ℚ
  color : String
  fontWeight : FontWeight
  fontFamily : String
deriving DecidableEq, Repr

/-- The text literal `createText` inserts: position as given, width 100,
height `fontSize * 1.2`. -/
def DesignEditor.newTextOf (textId : String) (payload : CreateTextPayload) : TextElement :=
  { id := textId,
    bounds := ⟨payload.left, payload.top, 100, payload.fontSize * (6 / 5)⟩,
    content := payload.content,
    fontSize := payload.fontSize,
    color := payload.color,
    fontWeight := payload.fontWeight,
    fontFamily := payload.fontFamily }

/-- `createText`: position is required and used as given; width 100, height
`fontSize * 1.2`.  (The source registers the command via
`CreateShapeCommand`.) -/
def DesignEditor.createText (ed : DesignEditor) (textId : String)
    (payload : CreateTextPayload) : DesignEditor × String :=
  let previousValue := ed.stateStore.value
  let text := DesignEditor.newTextOf textId payload
  let nextValue := {previousValue with texts := recSet previousValue.texts textId text}
  let command := mkCreateShapeCommand previousValue nextValue textId
  let p := ed.historyManager.executeCommand command
  (⟨⟨p.2, some ⟨textId⟩, p.1.canUndo, p.1.canRedo⟩, p.1⟩, textId)

structure CreateImagePayload where
  src : String
  width : ℚ
  height : ℚ
  left : Option ℚ := none
  top : Option ℚ := none
deriving DecidableEq, Repr

/-- The image literal `createImage` inserts: centred bounds via
`payload.left ?? center` — nullish coalescing, so a supplied coordinate `0`
is honoured. -/
def DesignEditor.newImageOf (previousValue : DesignValue) (imageId : String)
    (payload : CreateImagePayload) : ImageElement :=
  { id := imageId,
    bounds := ⟨payload.left.getD (previousValue.attributes.width / 2 - payload.width / 2),
               payload.top.getD (previousValue.attributes.height / 2 - payload.height / 2),
               payload.width, payload.height⟩,
    src := payload.src,
    opacity := some 1 }

/-- `createImage`: centred bounds via `payload.left ?? center` — nullish
coalescing, so a supplied coordinate `0` is honoured. -/
def DesignEditor.createImage (ed : DesignEditor) (imageId : String)
    (payload : CreateImagePayload) : DesignEditor × String :=
  let previousValue := ed.stateStore.value
  let image := DesignEditor.newImageOf previousValue imageId payload
  let nextValue := {previousValue with images := recSet previousValue.images imageId image}
  let command := mkCreateShapeCommand previousValue nextValue imageId
  let p := ed.historyManager.executeCommand command
  (⟨⟨p.2, some ⟨imageId⟩, p.1.canUndo, p.1.canRedo⟩, p.1⟩, imageId)

/-- `updateShapeAttributes`: per-id guard `if (!shape) return null`; applied
directly to the store (no Command); returns the requested ids unchanged. -/
def DesignEditor.updateShapeAttributes (ed : DesignEditor) (ids : List String)
    (transparency : Option ℚ) : DesignEditor × List String :=
  let v := ed.stateStore.value
  let entries := compactMap ids (fun id =>
    match recGet v.shapes id with
    | none => none
    | some shape =>
        some (id, {shape with transparency :=
                     match transparency with
                     | some t => some t
                     | none => shape.transparency}))
  let nextValue := {v with shapes := recSetAll v.shapes entries}
  (⟨{ed.stateStore with value := cleanUndefinedValues nextValue}, ed.historyManager⟩, ids)

/-- `updateTextContent`: silent no-op when the id is absent; otherwise a
historied update Command. -/
def DesignEditor.updateTextContent (ed : DesignEditor) (textId : String)
    (content : String) : DesignEditor :=
  let previousValue := ed.stateStore.value
  match recGet previousValue.texts textId with
  | none => ed
  | some currentText =>
    let nextValue :=
      {previousValue with
        texts := recSet previousValue.texts textId {currentText with content := content}}
    let command := mkUpdateShapeCommand previousValue nextValue [textId] "Update text content"
    let p := ed.historyManager.executeCommand command
    ⟨⟨cleanUndefinedValues p.2, ed.stateStore.selection, p.1.canUndo, p.1.canRedo⟩, p.1⟩

structure TextStylePayload where
  fontSize : Option ℚ := none
  color : Option String := none
deriving DecidableEq, Repr

/-- `updateTextStyle`: silent no-op when the id is absent; `{...text, ...style}`
spread applies only the supplied keys. -/
def DesignEditor.updateTextStyle (ed : DesignEditor) (textId : String)
    (style : TextStylePayload) : DesignEditor :=
  let previousValue := ed.stateStore.value
  match recGet previousValue.texts textId with
  | none => ed
  | some currentText =>
    let newText :=
      {currentText with
        fontSize := style.fontSize.getD currentText.fontSize,
        color := style.color.getD currentText.color}
    let nextValue :=
      {previousValue with texts := recSet previousValue.texts textId newText}
    let command := mkUpdateShapeCommand previousValue nextValue [textId] "Update text style"
    let p := ed.historyManager.executeCommand command
    ⟨⟨cleanUndefinedValues p.2, ed.stateStore.selection, p.1.canUndo, p.1.canRedo⟩, p.1⟩

/-- `updateImageOpacity`: silent no-op when the id is absent; otherwise a
historied update Command. -/
def DesignEditor.updateImageOpacity (ed : DesignEditor) (imageId : String)
    (opacity : ℚ) : DesignEditor :=
  let previousValue := ed.stateStore.value
  match recGet previousValue.images imageId with
  | none => ed
  | some currentImage =>
    let nextValue :=
      {previousValue with
        images := recSet previousValue.images imageId {currentImage with opacity := some opacity}}
    let command := mkUpdateShapeCommand previousValue nextValue [imageId] "Update image opacity"
    let p := ed.historyManager.executeCommand command
    ⟨⟨cleanUndefinedValues p.2, ed.stateStore.selection, p.1.canUndo, p.1.canRedo⟩, p.1⟩

/-- `deleteShapes`: deduplicate, filter to present ids, no-op on empty;
otherwise remove, record a historied delete Command and clear the
selection. -/
def DesignEditor.deleteShapes (ed : DesignEditor) (nodeIds : List String) :
    DesignEditor × List String :=
  let previousValue := ed.stateStore.value
  let uniqueIds := uniqued nodeIds
  let deleteIds := uniqueIds.filter (fun id => (recGet previousValue.shapes id).isSome)
  if deleteIds.isEmpty then
    (ed, [])
  else
    let nextValue := {previousValue with shapes := recRemoveAll previousValue.shapes deleteIds}
    let command := mkDeleteShapeCommand previousValue nextValue deleteIds
    let p := ed.historyManager.executeCommand command
    (⟨⟨p.2, none, p.1.canUndo, p.1.canRedo⟩, p.1⟩, deleteIds)

/-- `deleteTexts`: same scheme as `deleteShapes` on the text collection. -/
def DesignEditor.deleteTexts (ed : DesignEditor) (nodeIds : List String) :
    DesignEditor × List String :=
  let previousValue := ed.stateStore.value
  let uniqueIds := uniqued nodeIds
  let deleteIds := uniqueIds.filter (fun id => (recGet previousValue.texts id).isSome)
  if deleteIds.isEmpty then
    (ed, [])
  else
    let nextValue := {previousValue with texts := recRemoveAll previousValue.texts deleteIds}
    let command := mkDeleteShapeCommand previousValue nextValue deleteIds
    let p := ed.historyManager.executeCommand command
    (⟨⟨p.2, none, p.1.canUndo, p.1.canRedo⟩, p.1⟩, deleteIds)

/-- `deleteImages`: same scheme as `deleteShapes` on the image collection. -/
def DesignEditor.deleteImages (ed : DesignEditor) (nodeIds : List String) :
    DesignEditor × List String :=
  let previousValue := ed.stateStore.value
  let uniqueIds := uniqued nodeIds
  let deleteIds := uniqueIds.filter (fun id => (recGet previousValue.images id).isSome)
  if deleteIds.isEmpty then
    (ed, [])
  else
    let nextValue := {previousValue with images := recRemoveAll previousValue.images deleteIds}
    let command := mkDeleteShapeCommand previousValue nextValue deleteIds
    let p := ed.historyManager.executeCommand command
    (⟨⟨p.2, none, p.1.canUndo, p.1.canRedo⟩, p.1⟩, deleteIds)

/-! ## Style memory (`updateShapePaths` and the private `#updateShapes`) -/

/-- A partial stroke specification: each field is present only when the
caller supplied it. -/
structure StrokeSpec where
  color : Option String := none
  weight : Option ℚ := none
  dasharray : Option (ℚ × ℚ) := none
deriving DecidableEq, Repr

/-- JavaScript `x || dflt` on a string: `""` is falsy. -/
def jsStrOr (c : String) (dflt : String) : String :=
  if c == "" then dflt else c

/-- JavaScript `x || dflt` on a number: `0` is falsy. -/
def jsNumOr (w : ℚ) (dflt : ℚ) : ℚ :=
  if w = 0 then dflt else w

/-- JavaScript `x || dflt` on a possibly-absent string. -/
def jsStrOptOr (c : Option String) (dflt : String) : String :=
  match c with
  | some s => jsStrOr s dflt
  | none => dflt

/-- JavaScript `x || dflt` on a possibly-absent number. -/
def jsNumOptOr (w : Option ℚ) (dflt : ℚ) : ℚ :=
  match w with
  | some q => jsNumOr q dflt
  | none => dflt

def defaultStrokeColor : String := "#000000"
def defaultStrokeWeight : ℚ := 4

/-- The per-shape updater passed by `updateShapePaths` to `#updateShapes`.
`#updateShapes` looks the shape up without a presence guard, so the updater
receives `undefined` for a missing id and the unconditional `shape.paths`
access throws a `TypeError`, modelled as `Except.error`. -/
def updateShapePathsUpdater (stroke : Js3 StrokeSpec) (fill : Js3 ShapeFill)
    (shape? : Option ShapeDef) : Except String ShapeDef :=
  match shape? with
  | none => .error "TypeError: Cannot read properties of undefined (reading paths)"
  | some shape =>
    let rememberedStroke : Option ShapeStroke :=
      match stroke with
      | .undef => shape.rememberedStroke
      | .null =>
        -- disabling: remember the first path's current stroke, if any
        match shape.paths.head? with
        | some p0 =>
          match p0.stroke with
          | some currentStroke =>
              some ⟨jsStrOr currentStroke.color defaultStrokeColor,
                    jsNumOr currentStroke.weight defaultStrokeWeight, none⟩
          | none => shape.rememberedStroke
        | none => shape.rememberedStroke
      | .val s =>
          -- enabling: save the provided attributes merged over the defaults
          some ⟨jsStrOptOr s.color defaultStrokeColor,
                jsNumOptOr s.weight defaultStrokeWeight, none⟩
    let rememberedFill : Option ShapeFill :=
      match fill with
      | .undef => shape.rememberedFill
      | .null =>
        match shape.paths.head? with
        | some p0 =>
          match p0.fill with
          | some currentFill => some currentFill
          | none => shape.rememberedFill
        | none => shape.rememberedFill
      | .val f => some f
    let newPaths := shape.paths.map (fun path =>
      let newStroke : Option ShapeStroke :=
        match stroke with
        | .undef => path.stroke
        | .null => none
        | .val s =>
            some ⟨jsStrOptOr s.color defaultStrokeColor,
                  jsNumOptOr s.weight defaultStrokeWeight,
                  s.dasharray⟩
      let newFill : Option ShapeFill :=
        match fill with
        | .undef => path.fill
        | .null => none
        | .val f => some f
      -- default fill only for a path left bare by a stroke disable
      let newFill2 :=
        if newStroke.isNone && newFill.isNone && stroke.isNull then
          some ⟨"#f8f9fa"⟩
        else
          newFill
      ⟨path.d, newStroke, newFill2⟩)
    .ok {shape with
           rememberedStroke := rememberedStroke,
           rememberedFill := rememberedFill,
           paths := newPaths}

/-- `compactMap` over a throwing callback: map, propagating the first thrown
error.  (No result is ever dropped here: the source drops an updater result
only when `newShape === shape` — reference equality — and the updater always
returns a freshly constructed object.) -/
def exceptMapList {α β : Type} (f : α → Except String β) : List α → Except String (List β)
  | [] => .ok []
  | x :: xs => do
    let y ← f x
    let ys ← exceptMapList f xs
    return y :: ys

/-- The private `#updateShapes`: `compactMap` over the requested ids with no
presence guard — a missing id reaches the updater as `undefined`. -/
def DesignEditor.updateShapes (value : DesignValue) (ids : List String)
    (updater : Option ShapeDef → Except String ShapeDef) :
    Except String (DesignValue × List String) := do
  let shapes ← exceptMapList (fun id => updater (recGet value.shapes id)) ids
  let newValue :=
    {value with shapes := recSetAll value.shapes (shapes.map (fun s => (s.id, s)))}
  return (newValue, shapes.map (fun s => s.id))

/-- `updateShapePaths`: stroke/fill update with style memory, recorded as a
historied update Command; the store write keeps the selection. -/
def DesignEditor.updateShapePaths (ed : DesignEditor) (ids : List String)
    (stroke : Js3 StrokeSpec) (fill : Js3 ShapeFill) : Except String DesignEditor := do
  let previousValue := ed.stateStore.value
  let r ← DesignEditor.updateShapes previousValue ids (updateShapePathsUpdater stroke fill)
  let operation :=
    match stroke with
    | .undef => (match fill with
                 | .null => "Remove fill"
                 | _ => "Update fill")
    | .null => "Remove stroke"
    | .val _ => "Update stroke"
  let command := mkUpdateShapeCommand previousValue r.1 ids operation
  let p := ed.historyManager.executeCommand command
  return ⟨⟨cleanUndefinedValues p.2, ed.stateStore.selection, p.1.canUndo, p.1.canRedo⟩, p.1⟩

/-! ## Geometry engine -/

inductive ResizeDirection where
  | left
  | right
  | top
  | bottom
  | topLeft
  | topRight
  | bottomLeft
  | bottomRight
deriving DecidableEq, Repr

/-- Modelled from the spec: the implementation file `src/math/resizeBounds.ts`
is not among the provided sources (only its call site in `SelectionResize`,
which always passes `isRatioLocked: false`).  Modelled from §4.5 and the §8
examples for the aspect-unlocked case: each anchor adds the pointer delta to
the dragged edge(s), moving the matching origin coordinate for left/top
anchors. -/
def resizeBounds (b : Bounds) (direction : ResizeDirection) (deltaX deltaY : ℚ) : Bounds :=
  match direction with
  | .left => ⟨b.left + deltaX, b.top, b.width - deltaX, b.height⟩
  | .right => ⟨b.left, b.top, b.width + deltaX, b.height⟩
  | .top => ⟨b.left, b.top + deltaY, b.width, b.height - deltaY⟩
  | .bottom => ⟨b.left, b.top, b.width, b.height + deltaY⟩
  | .topLeft => ⟨b.left + deltaX, b.top + deltaY, b.width - deltaX, b.height - deltaY⟩
  | .topRight => ⟨b.left, b.top + deltaY, b.width + deltaX, b.height - deltaY⟩
  | .bottomLeft => ⟨b.left + deltaX, b.top, b.width - deltaX, b.height + deltaY⟩
  | .bottomRight => ⟨b.left, b.top, b.width + deltaX, b.height + deltaY⟩

/-! ## Undo reachability -/

/-- Snapshots obtainable by repeatedly calling `undo()` until it returns the
null sentinel (fuel-bounded; the history length always suffices). -/
def undoTraceAux : Nat -> HistoryManager -> List DesignValue
  | 0, _ => []
  | Nat.succ fuel, m =>
    let p := m.undo
    match p.2 with
    | some v => v :: undoTraceAux fuel p.1
    | none => []

def undoTrace (m : HistoryManager) : List DesignValue :=
  undoTraceAux m.history.length m

/-! ## Concrete fixtures used by witnesses and counterexamples -/

def docA : DesignValue := ⟨[], [], [], ⟨100, 100⟩⟩
def docB : DesignValue := ⟨[], [], [], ⟨200, 100⟩⟩
def docC : DesignValue := ⟨[], [], [], ⟨300, 100⟩⟩

def cmdOld : Command := mkBaseCommand docA docB "old"
def cmdMid : Command := mkBaseCommand docB docB "mid"
def cmdNew : Command := mkBaseCommand docC docC "new"

/-- A full history: 50 retained commands, all applied. -/
def hmFull : HistoryManager := ⟨cmdOld :: List.replicate 49 cmdMid, 49⟩

def vboxFix : ShapeViewBox := ⟨0, 0, 100, 100⟩
def pathRed : ShapePath := ⟨"M 0 0 L 10 10", some ⟨"#ff0000", 5, none⟩, none⟩
def shapeRed : ShapeDef := ⟨"s1", ⟨10, 10, 50, 50⟩, none, [pathRed], vboxFix, none, none⟩
def pathDash : ShapePath := ⟨"M 0 0 L 10 10", some ⟨"#ff0000", 5, some (2, 2)⟩, none⟩
def shapeDash : ShapeDef := ⟨"s2", ⟨10, 10, 50, 50⟩, none, [pathDash], vboxFix, none, none⟩
def textFix : TextElement := ⟨"t1", ⟨5, 5, 100, 20⟩, "hello", 16, "#000000", .normal, "Arial"⟩
def imageFix : ImageElement := ⟨"i1", ⟨0, 0, 40, 40⟩, "data:image", some 1⟩

/-- A concrete document: two shapes, one text, one image, 800 by 600 canvas. -/
def docFix : DesignValue :=
  ⟨[("s1", shapeRed), ("s2", shapeDash)], [("t1", textFix)], [("i1", imageFix)], ⟨800, 600⟩⟩

def edFix : DesignEditor := DesignEditor.create docFix

/-- An editor with a live selection and one undoable command. -/
def edSel : DesignEditor :=
  ⟨⟨docFix, some ⟨"s1"⟩, true, false⟩, ⟨[mkBaseCommand docA docFix "load"], 0⟩⟩

/-- An editor with a live selection, one undoable and one redoable command. -/
def edBoth : DesignEditor :=
  ⟨⟨docFix, some ⟨"s1"⟩, true, true⟩,
   ⟨[mkBaseCommand docA docB "first", mkBaseCommand docB docC "second"], 0⟩⟩

def spFix : CreateShapePayload := ⟨some 7, none, 10, 10, vboxFix, []⟩
def ipFix : CreateImagePayload := ⟨"data:x", 10, 10, some 0, none⟩
def tpFix : CreateTextPayload := ⟨3, 4, "hi", 16, "#000000", .normal, "Arial"⟩


/-! ## Deep-copy lemmas -/

theorem map_self {α : Type} (f : α → α) (h : ∀ x, f x = x) :
    ∀ l : List α, l.map f = l := by
  intro l
  induction l with
  | nil => rfl
  | cons x xs ih => simp [h x, ih]

theorem shapeStroke_clone_eq (s : ShapeStroke) : s.clone = s := by
  cases s with
  | mk c w d => cases d <;> rfl

theorem shapeFill_clone_eq (f : ShapeFill) : f.clone = f := rfl

theorem shapePath_clone_eq (p : ShapePath) : p.clone = p := by
  cases p with
  | mk d s f =>
    cases s <;> cases f <;>
      simp [ShapePath.clone, shapeStroke_clone_eq, shapeFill_clone_eq]

theorem shapeDef_clone_eq (s : ShapeDef) : s.clone = s := by
  cases s with
  | mk i b t ps vb rs rf =>
    simp only [ShapeDef.clone, map_self ShapePath.clone shapePath_clone_eq]
    cases b
    cases vb
    cases rs <;> cases rf <;>
      simp [shapeStroke_clone_eq, shapeFill_clone_eq]

theorem textElement_clone_eq (t : TextElement) : t.clone = t := by
  cases t with
  | mk i b c fs co fw ff => cases b; rfl

theorem imageElement_clone_eq (i : ImageElement) : i.clone = i := by
  cases i with
  | mk i b s o => cases b; rfl

theorem deepClone_eq (v : DesignValue) : deepClone v = v := by
  cases v with
  | mk s t i a =>
    cases a
    simp only [deepClone, DesignValue.mk.injEq]
    exact ⟨map_self _ (fun p => by simp [shapeDef_clone_eq]) s,
           map_self _ (fun p => by simp [textElement_clone_eq]) t,
           map_self _ (fun p => by simp [imageElement_clone_eq]) i, trivial⟩

theorem cleanUndefinedValues_eq (v : DesignValue) : cleanUndefinedValues v = v :=
  deepClone_eq v

/-! ## Record lemmas -/

theorem recGet_append_self {α : Type} (m : Rec α) (k : String) (v : α)
    (h : recHas m k = false) : recGet (m ++ [(k, v)]) k = some v := by
  induction m with
  | nil => simp [recGet, List.find?]
  | cons p t ih =>
    simp only [recHas, List.any_cons, Bool.or_eq_false_iff] at h
    obtain ⟨hp, ht⟩ := h
    simp only [List.cons_append, recGet, List.find?, hp]
    exact ih ht

theorem recGet_cons_ne {α : Type} (p : String × α) (t : Rec α) (k : String)
    (h : (p.1 == k) = false) : recGet (p :: t) k = recGet t k := by
  simp [recGet, List.find?, h]

theorem recGet_map_set_self {α : Type} (m : Rec α) (k : String) (v : α)
    (h : recHas m k = true) :
    recGet (m.map (fun p => if p.1 == k then (k, v) else p)) k = some v := by
  induction m with
  | nil => simp [recHas] at h
  | cons p t ih =>
    by_cases hp : p.1 == k
    · simp [recGet, List.find?, hp]
    · have hp' : (p.1 == k) = false := by simpa using hp
      have ht : recHas t k = true := by
        simpa [recHas, hp'] using h
      simp only [List.map_cons, hp', Bool.false_eq_true, if_false]
      rw [recGet_cons_ne p _ k hp']
      exact ih ht

theorem recGet_recSet_self {α : Type} (m : Rec α) (k : String) (v : α) :
    recGet (recSet m k v) k = some v := by
  unfold recSet
  by_cases h : recHas m k
  · rw [if_pos h]
    exact recGet_map_set_self m k v h
  · rw [if_neg h]
    exact recGet_append_self m k v (by simpa using h)

/-! ## History manager lemmas -/

/-- After `executeCommand` on a well-formed history, the cursor is
non-negative, points at the just-executed command, and the returned value is
`command.execute()`; well-formedness is preserved. -/
theorem HistoryManager.executeCommand_spec (m : HistoryManager) (c : Command)
    (hwf : m.WellFormed) :
    (m.executeCommand c).1.WellFormed ∧
    0 ≤ (m.executeCommand c).1.currentIndex ∧
    (m.executeCommand c).1.history[((m.executeCommand c).1.currentIndex).toNat]? = some c ∧
    (m.executeCommand c).2 = c.execRes := by
  obtain ⟨hlo, hhi⟩ := hwf
  have htake : (m.history.take (m.currentIndex + 1).toNat).length = (m.currentIndex + 1).toNat := by
    rw [List.length_take]
    omega
  by_cases hgt : (m.history.take (m.currentIndex + 1).toNat ++ [c]).length > maxHistorySize
  · have hres : m.executeCommand c
        = (⟨(m.history.take (m.currentIndex + 1).toNat ++ [c]).drop 1, m.currentIndex⟩,
           c.execRes) := by
      simp only [HistoryManager.executeCommand, if_pos hgt]
    have hlen : (m.history.take (m.currentIndex + 1).toNat).length + 1 > maxHistorySize := by
      simpa using hgt
    have hub : 49 ≤ m.currentIndex := by
      simp only [maxHistorySize] at hlen
      omega
    have hdrop : ((m.history.take (m.currentIndex + 1).toNat ++ [c]).drop 1)
        = (m.history.take (m.currentIndex + 1).toNat).drop 1 ++ [c] := by
      apply List.drop_append_of_le_length
      simp only [maxHistorySize] at hlen
      omega
    rw [hres]
    refine ⟨⟨?_, ?_⟩, ?_, ?_, rfl⟩
    · show (-1 : Int) ≤ m.currentIndex
      omega
    · show m.currentIndex
        < (((m.history.take (m.currentIndex + 1).toNat ++ [c]).drop 1).length : Int)
      simp only [hdrop, List.length_append, List.length_drop, htake, List.length_cons,
        List.length_nil]
      omega
    · show (0 : Int) ≤ m.currentIndex
      omega
    · show ((m.history.take (m.currentIndex + 1).toNat ++ [c]).drop 1)[m.currentIndex.toNat]?
        = some c
      rw [hdrop]
      have hidx : m.currentIndex.toNat
          = ((m.history.take (m.currentIndex + 1).toNat).drop 1).length := by
        simp only [List.length_drop, htake]
        omega
      rw [hidx]
      simp
  · have hres : m.executeCommand c
        = (⟨m.history.take (m.currentIndex + 1).toNat ++ [c], m.currentIndex + 1⟩,
           c.execRes) := by
      simp only [HistoryManager.executeCommand, if_neg hgt]
    have hidx : (m.currentIndex + 1).toNat = (m.history.take (m.currentIndex + 1).toNat).length := by
      omega
    rw [hres]
    refine ⟨⟨?_, ?_⟩, ?_, ?_, rfl⟩
    · show (-1 : Int) ≤ m.currentIndex + 1
      omega
    · show m.currentIndex + 1
        < ((m.history.take (m.currentIndex + 1).toNat ++ [c]).length : Int)
      simp only [List.length_append, htake, List.length_cons, List.length_nil]
      omega
    · show (0 : Int) ≤ m.currentIndex + 1
      omega
    · show (m.history.take (m.currentIndex + 1).toNat ++ [c])[(m.currentIndex + 1).toNat]?
        = some c
      rw [hidx]
      simp

/-- Taking one more element and reversing prepends that element. -/
theorem cons_take_reverse {α : Type} (l : List α) (n : Nat) (h : n < l.length) :
    l.get ⟨n, h⟩ :: (l.take n).reverse = (l.take (n + 1)).reverse := by
  rw [List.take_succ, List.getElem?_eq_getElem h]
  simp only [List.get_eq_getElem, Option.toList_some, List.reverse_append,
    List.reverse_singleton, List.singleton_append]

/-- `undo()` on a state whose cursor points at command `c`. -/
theorem HistoryManager.undo_eq (m : HistoryManager) (c : Command)
    (h0 : 0 ≤ m.currentIndex)
    (hget : m.history[m.currentIndex.toNat]? = some c) :
    m.undo = (⟨m.history, m.currentIndex - 1⟩, some c.undoRes) := by
  have hcu : m.canUndo = true := by
    simp only [HistoryManager.canUndo, ge_iff_le, decide_eq_true_eq]
    omega
  unfold HistoryManager.undo
  rw [if_pos hcu, hget]
  rfl

/-- `redo()` on a state with a next command `c`. -/
theorem HistoryManager.redo_eq (m : HistoryManager) (c : Command)
    (hlt : m.currentIndex < (m.history.length : Int) - 1)
    (hget : m.history[(m.currentIndex + 1).toNat]? = some c) :
    m.redo = (⟨m.history, m.currentIndex + 1⟩, some c.execRes) := by
  have hcr : m.canRedo = true := by
    simp only [HistoryManager.canRedo, decide_eq_true_eq]
    exact hlt
  unfold HistoryManager.redo
  rw [if_pos hcr, hget]
  rfl

/-- `undo()` at the boundary returns the null sentinel and leaves the
manager unchanged. -/
theorem HistoryManager.undo_sentinel (m : HistoryManager)
    (h0 : m.currentIndex < 0) : m.undo = (m, none) := by
  have hcu : m.canUndo = false := by
    simp only [HistoryManager.canUndo, ge_iff_le, decide_eq_false_iff_not, not_le]
    omega
  unfold HistoryManager.undo
  rw [if_neg (by simp [hcu])]

/-- The undo trace of a well-formed history is exactly the reversed list of
previous-snapshot copies of the applied commands. -/
theorem undoTraceAux_eq (fuel : Nat) :
    ∀ m : HistoryManager, m.currentIndex < (m.history.length : Int) →
      (m.currentIndex + 1).toNat ≤ fuel →
      undoTraceAux fuel m
        = ((m.history.take (m.currentIndex + 1).toNat).reverse).map Command.undoRes := by
  induction fuel with
  | zero =>
    intro m hhi hfuel
    have h0 : (m.currentIndex + 1).toNat = 0 := by omega
    simp [undoTraceAux, h0]
  | succ fuel ih =>
    intro m hhi hfuel
    by_cases h0 : 0 ≤ m.currentIndex
    · have hlt : m.currentIndex.toNat < m.history.length := by omega
      have hget : m.history[m.currentIndex.toNat]? = some (m.history[m.currentIndex.toNat]) :=
        List.getElem?_eq_getElem hlt
      simp only [undoTraceAux]
      rw [HistoryManager.undo_eq m _ h0 hget]
      have hih := ih ⟨m.history, m.currentIndex - 1⟩ (by simpa using by omega) (by
        show ((m.currentIndex - 1) + 1).toNat ≤ fuel
        omega)
      simp only at hih
      rw [hih]
      have hci : (m.currentIndex - 1 + 1).toNat = m.currentIndex.toNat := by omega
      rw [hci]
      have hsucc : (m.currentIndex + 1).toNat = m.currentIndex.toNat + 1 := by omega
      rw [hsucc]
      show m.history[m.currentIndex.toNat].undoRes
          :: List.map Command.undoRes (List.take m.currentIndex.toNat m.history).reverse
        = List.map Command.undoRes (List.take (m.currentIndex.toNat + 1) m.history).reverse
      rw [← cons_take_reverse m.history m.currentIndex.toNat hlt]
      simp
    · have hci : (m.currentIndex + 1).toNat = 0 := by omega
      simp only [undoTraceAux]
      rw [HistoryManager.undo_sentinel m (by omega)]
      simp [hci]

/-- `uniqued` produces a duplicate-free list. -/
theorem uniqued_nodup (xs : List String) : (uniqued xs).Nodup := by
  have key : ∀ (ys : List String) (acc : List String), acc.Nodup →
      (ys.foldl (fun acc x => if acc.contains x then acc else acc ++ [x]) acc).Nodup := by
    intro ys
    induction ys with
    | nil => intro acc hacc; simpa using hacc
    | cons y ys ih =>
      intro acc hacc
      simp only [List.foldl_cons]
      by_cases hy : acc.contains y
      · rw [if_pos hy]
        exact ih acc hacc
      · rw [if_neg hy]
        apply ih
        have hy' : y ∉ acc := by simpa using hy
        simp [List.nodup_append, hacc, hy']
  exact key xs [] (by simp)

/-! ## Claim theorems -/

/-- C1: for every historied operation, modelled as the `BaseCommand` built
from the document `prevDoc` before and `nextDoc` after executing the
operation on it, running the command through `executeCommand` and then
calling `undo()` yields a document deep-equal to `prevDoc`, and `redo()`
after that `undo()` yields a document deep-equal to `nextDoc`.  The returned
snapshots are `deepClone` rebuilds of the stored history entries
(`Command.execRes`/`Command.undoRes`), i.e. fresh deep copies; `deepClone_eq`
equates them with the originals. -/
theorem claim_C1_execute_undo_redo_roundtrip
    (m : HistoryManager) (prevDoc nextDoc : DesignValue) (desc : String)
    (hwf : m.WellFormed) :
    (m.executeCommand (mkBaseCommand prevDoc nextDoc desc)).2 = nextDoc ∧
    ((m.executeCommand (mkBaseCommand prevDoc nextDoc desc)).1.undo).2 = some prevDoc ∧
    (((m.executeCommand (mkBaseCommand prevDoc nextDoc desc)).1.undo).1.redo).2
      = some nextDoc := by
  obtain ⟨⟨hlo1, hhi1⟩, hpos, hget, hres⟩ :=
    HistoryManager.executeCommand_spec m (mkBaseCommand prevDoc nextDoc desc) hwf
  set m1 := (m.executeCommand (mkBaseCommand prevDoc nextDoc desc)).1 with hm1
  have hexec : (mkBaseCommand prevDoc nextDoc desc).execRes = nextDoc := by
    simp [Command.execRes, mkBaseCommand, deepClone_eq]
  have hundoRes : (mkBaseCommand prevDoc nextDoc desc).undoRes = prevDoc := by
    simp [Command.undoRes, mkBaseCommand, deepClone_eq]
  have hundo := HistoryManager.undo_eq m1 _ hpos hget
  have h1 : (m1.undo).1 = (⟨m1.history, m1.currentIndex - 1⟩ : HistoryManager) := by
    rw [hundo]
  have hget2 : (⟨m1.history, m1.currentIndex - 1⟩ : HistoryManager).history[
      ((⟨m1.history, m1.currentIndex - 1⟩ : HistoryManager).currentIndex + 1).toNat]?
      = some (mkBaseCommand prevDoc nextDoc desc) := by
    show m1.history[(m1.currentIndex - 1 + 1).toNat]? = some _
    rw [show (m1.currentIndex - 1 + 1).toNat = m1.currentIndex.toNat by omega]
    exact hget
  have hredo := HistoryManager.redo_eq ⟨m1.history, m1.currentIndex - 1⟩
    (mkBaseCommand prevDoc nextDoc desc)
    (by show m1.currentIndex - 1 < (m1.history.length : Int) - 1; omega)
    hget2
  refine ⟨by rw [hres, hexec], by rw [hundo, hundoRes], ?_⟩
  rw [h1, hredo]
  simp [hexec]

/-- Witness for C1: concrete run on the empty history. -/
theorem claim_C1_witness :
    HistoryManager.empty.WellFormed ∧
    ((HistoryManager.empty.executeCommand (mkBaseCommand docA docB "update")).2 = docB ∧
     ((HistoryManager.empty.executeCommand (mkBaseCommand docA docB "update")).1.undo).2
       = some docA ∧
     (((HistoryManager.empty.executeCommand (mkBaseCommand docA docB "update")).1.undo).1.redo).2
       = some docB) :=
  ⟨by decide,
   claim_C1_execute_undo_redo_roundtrip HistoryManager.empty docA docB "update" (by decide)⟩

/-- C3: executing a 51st historied command while 50 are retained (all
applied, cursor at 49) evicts the oldest entry (index 0), keeps exactly 50
entries, leaves the cursor pointing at the just-executed entry, and makes
the evicted earliest state unrecoverable via undo: the undo trace never
returns the evicted command's previous snapshot (given that snapshot is not
also the previous snapshot of a retained command). -/
theorem claim_C3_history_capacity_eviction
    (m : HistoryManager) (c c0 : Command)
    (hlen : m.history.length = 50) (hci : m.currentIndex = 49)
    (hhead : m.history.head? = some c0)
    (hfresh : c0.undoRes ∉ (m.history.drop 1 ++ [c]).map Command.undoRes) :
    (m.executeCommand c).1.history = m.history.drop 1 ++ [c] ∧
    (m.executeCommand c).1.history.length = 50 ∧
    (m.executeCommand c).1.currentIndex = 49 ∧
    (m.executeCommand c).1.history[49]? = some c ∧
    (m.executeCommand c).2 = c.execRes ∧
    c0.undoRes ∉ undoTrace (m.executeCommand c).1 := by
  have h50 : ((49 : Int) + 1).toNat = 50 := by decide
  have htake : m.history.take (m.currentIndex + 1).toNat = m.history := by
    rw [hci, h50, ← hlen, List.take_length]
  have hgt2 : (m.history ++ [c]).length > maxHistorySize := by
    simp [hlen, maxHistorySize]
  have hres : m.executeCommand c
      = (⟨(m.history ++ [c]).drop 1, m.currentIndex⟩, c.execRes) := by
    simp only [HistoryManager.executeCommand]
    rw [htake, if_pos hgt2]
  have hdrop : (m.history ++ [c]).drop 1 = m.history.drop 1 ++ [c] :=
    List.drop_append_of_le_length (by omega)
  have hlen2 : ((m.history ++ [c]).drop 1).length = 50 := by
    simp [hlen]
  refine ⟨?_, ?_, ?_, ?_, ?_, ?_⟩
  · rw [hres]
    show (m.history ++ [c]).drop 1 = m.history.drop 1 ++ [c]
    exact hdrop
  · rw [hres]
    show ((m.history ++ [c]).drop 1).length = 50
    exact hlen2
  · rw [hres]
    show m.currentIndex = 49
    exact hci
  · rw [hres]
    show ((m.history ++ [c]).drop 1)[49]? = some c
    rw [hdrop]
    have hl49 : (49 : Nat) = (m.history.drop 1).length := by
      simp [hlen]
    rw [hl49]
    simp
  · rw [hres]
  · rw [hres]
    show c0.undoRes ∉ undoTrace ⟨(m.history ++ [c]).drop 1, m.currentIndex⟩
    unfold undoTrace
    have hlt : (⟨(m.history ++ [c]).drop 1, m.currentIndex⟩ : HistoryManager).currentIndex
        < (((⟨(m.history ++ [c]).drop 1, m.currentIndex⟩ : HistoryManager).history.length : Int)) := by
      show m.currentIndex < (((m.history ++ [c]).drop 1).length : Int)
      rw [hlen2, hci]
      omega
    have hfuel : ((⟨(m.history ++ [c]).drop 1, m.currentIndex⟩ : HistoryManager).currentIndex + 1).toNat
        ≤ (⟨(m.history ++ [c]).drop 1, m.currentIndex⟩ : HistoryManager).history.length := by
      show (m.currentIndex + 1).toNat ≤ ((m.history ++ [c]).drop 1).length
      rw [hci, h50, hlen2]
    have htr := undoTraceAux_eq
      ((⟨(m.history ++ [c]).drop 1, m.currentIndex⟩ : HistoryManager).history.length)
      ⟨(m.history ++ [c]).drop 1, m.currentIndex⟩ hlt hfuel
    rw [htr]
    show c0.undoRes ∉
      (((m.history ++ [c]).drop 1).take (m.currentIndex + 1).toNat).reverse.map Command.undoRes
    rw [hci, h50]
    rw [show ((m.history ++ [c]).drop 1).take 50 = (m.history ++ [c]).drop 1 by
      rw [← hlen2]; exact List.take_length _]
    rw [hdrop]
    have h2 := hfresh
    simp at h2 ⊢
    exact ⟨h2.2, h2.1⟩

/-- Witness for C3: a concrete full history of 50 commands. -/
theorem claim_C3_witness :
    (hmFull.history.length = 50 ∧ hmFull.currentIndex = 49 ∧
     hmFull.history.head? = some cmdOld ∧
     cmdOld.undoRes ∉ (hmFull.history.drop 1 ++ [cmdNew]).map Command.undoRes) ∧
    ((hmFull.executeCommand cmdNew).1.history = hmFull.history.drop 1 ++ [cmdNew] ∧
     (hmFull.executeCommand cmdNew).1.history.length = 50 ∧
     (hmFull.executeCommand cmdNew).1.currentIndex = 49 ∧
     (hmFull.executeCommand cmdNew).1.history[49]? = some cmdNew ∧
     (hmFull.executeCommand cmdNew).2 = cmdNew.execRes ∧
     cmdOld.undoRes ∉ undoTrace (hmFull.executeCommand cmdNew).1) :=
  ⟨⟨by decide, by decide, by decide, by decide⟩,
   claim_C3_history_capacity_eviction hmFull cmdNew cmdOld
     (by decide) (by decide) (by decide) (by decide)⟩

/-- C4: with commands [A, B] applied (cursor at 1), `undo()` returns B's
previous snapshot (the post-A state in this scenario) and moves the cursor
back; executing a new command C then truncates the stale redo branch — the
history becomes [A, C] with the cursor on C, `canRedo()` is false — and the
returned document is C's next snapshot, not B's. -/
theorem claim_C4_branch_invalidation (A B C : Command) :
    ((⟨[A, B], 1⟩ : HistoryManager).undo).2 = some B.undoRes ∧
    (((⟨[A, B], 1⟩ : HistoryManager).undo).1.executeCommand C).1.history = [A, C] ∧
    (((⟨[A, B], 1⟩ : HistoryManager).undo).1.executeCommand C).1.currentIndex = 1 ∧
    (((⟨[A, B], 1⟩ : HistoryManager).undo).1.executeCommand C).1.canRedo = false ∧
    (((⟨[A, B], 1⟩ : HistoryManager).undo).1.executeCommand C).2 = C.execRes :=
  ⟨rfl, rfl, rfl, rfl, rfl⟩

/-- C10: every successful `undo()` or `redo()` on the editor — one where the
history manager returns a snapshot rather than the null sentinel — sets the
store's selection to null, regardless of what was selected before. -/
theorem claim_C10_undo_redo_clear_selection (ed : DesignEditor) :
    ((ed.historyManager.undo).2.isSome → (ed.undo).stateStore.selection = none) ∧
    ((ed.historyManager.redo).2.isSome → (ed.redo).stateStore.selection = none) := by
  constructor
  · intro h
    obtain ⟨v, hv⟩ := Option.isSome_iff_exists.mp h
    simp only [DesignEditor.undo, hv]
  · intro h
    obtain ⟨v, hv⟩ := Option.isSome_iff_exists.mp h
    simp only [DesignEditor.redo, hv]

/-- Witness for C10: a selected editor with both an undoable and a redoable
command; undo and redo each succeed and each clear the selection. -/
theorem claim_C10_witness :
    ((edBoth.historyManager.undo).2.isSome = true ∧
     (edBoth.undo).stateStore.selection = none) ∧
    ((edBoth.historyManager.redo).2.isSome = true ∧
     (edBoth.redo).stateStore.selection = none) :=
  ⟨⟨by decide, (claim_C10_undo_redo_clear_selection edBoth).1 (by decide)⟩,
   ⟨by decide, (claim_C10_undo_redo_clear_selection edBoth).2 (by decide)⟩⟩

/-- C9: `resizeBounds` (a pure function of original bounds, direction and
deltas; aspect unlocked as at the call site) satisfies the two specified
examples, and for edge anchors only one dimension and the matching origin
coordinate change — the other origin coordinate and the other dimension are
untouched. -/
theorem claim_C9_resizeBounds_geometry :
    resizeBounds ⟨0, 0, 100, 100⟩ .right 20 0 = ⟨0, 0, 120, 100⟩ ∧
    resizeBounds ⟨0, 0, 100, 100⟩ .topLeft 10 10 = ⟨10, 10, 90, 90⟩ ∧
    (∀ b dx dy, (resizeBounds b .right dx dy).left = b.left ∧
      (resizeBounds b .right dx dy).top = b.top ∧
      (resizeBounds b .right dx dy).height = b.height) ∧
    (∀ b dx dy, (resizeBounds b .left dx dy).top = b.top ∧
      (resizeBounds b .left dx dy).height = b.height) ∧
    (∀ b dx dy, (resizeBounds b .top dx dy).left = b.left ∧
      (resizeBounds b .top dx dy).width = b.width) ∧
    (∀ b dx dy, (resizeBounds b .bottom dx dy).left = b.left ∧
      (resizeBounds b .bottom dx dy).top = b.top ∧
      (resizeBounds b .bottom dx dy).width = b.width) ∧
    (∀ b dx dy, resizeBounds b .topLeft dx dy
      = ⟨b.left + dx, b.top + dy, b.width - dx, b.height - dy⟩) :=
  ⟨by norm_num [resizeBounds],
   by norm_num [resizeBounds],
   fun b dx dy => ⟨rfl, rfl, rfl⟩,
   fun b dx dy => ⟨rfl, rfl⟩,
   fun b dx dy => ⟨rfl, rfl⟩,
   fun b dx dy => ⟨rfl, rfl, rfl⟩,
   fun b dx dy => rfl⟩

/-- `executeCommand` always returns `command.execute()`. -/
theorem HistoryManager.executeCommand_snd (m : HistoryManager) (c : Command) :
    (m.executeCommand c).2 = c.execRes := by
  simp only [HistoryManager.executeCommand]
  split <;> rfl

/-- C5 (claim: every update/delete with a missing id is a silent no-op that
raises no error).  The sibling operations comply — evaluated here at a
concrete missing id they leave the editor untouched — but `updateShapePaths`
does not: the private `#updateShapes` looks the shape up without the
`if (!shape) return null` guard that every sibling has, so the updater
dereferences `undefined` and the call throws a `TypeError` instead of
no-opping. -/
theorem claim_C5_missing_id_updateShapePaths_throws :
    DesignEditor.updateTextContent edFix "zz" "hi" = edFix ∧
    DesignEditor.updateTextStyle edFix "zz" ⟨some 12, none⟩ = edFix ∧
    DesignEditor.updateImageOpacity edFix "zz" (1 / 2) = edFix ∧
    (DesignEditor.updateShapeAttributes edFix ["zz"] (some (1 / 2))).1.stateStore.value
      = docFix ∧
    DesignEditor.deleteShapes edFix ["zz"] = (edFix, []) ∧
    DesignEditor.deleteTexts edFix ["zz"] = (edFix, []) ∧
    DesignEditor.deleteImages edFix ["zz"] = (edFix, []) ∧
    DesignEditor.updateShapePaths edFix ["zz"] Js3.null Js3.undef
      = Except.error "TypeError: Cannot read properties of undefined (reading paths)" :=
  ⟨rfl, rfl, rfl, by decide, rfl, rfl, rfl, rfl⟩

/-- C6: each delete operation deduplicates the requested ids, filters them
to ids present in the matching collection, returns the empty list leaving
the editor unchanged when none remain, and otherwise removes exactly the
matching entities (other collections untouched), records a historied delete
Command for the transition, clears the selection, and returns the deleted
ids.  Shown for `deleteShapes` and `deleteImages`. -/
theorem claim_C6_delete_dedup_filter_history_selection
    (ed : DesignEditor) (nodeIds : List String)
    (hwf : ed.historyManager.WellFormed) :
    let sIds := (uniqued nodeIds).filter
      (fun id => (recGet ed.stateStore.value.shapes id).isSome)
    let iIds := (uniqued nodeIds).filter
      (fun id => (recGet ed.stateStore.value.images id).isSome)
    (sIds.Nodup ∧
     (∀ id ∈ sIds, (recGet ed.stateStore.value.shapes id).isSome = true) ∧
     (sIds = [] → ed.deleteShapes nodeIds = (ed, [])) ∧
     (sIds ≠ [] →
       (ed.deleteShapes nodeIds).2 = sIds ∧
       (ed.deleteShapes nodeIds).1.stateStore.selection = none ∧
       (ed.deleteShapes nodeIds).1.stateStore.value
         = {ed.stateStore.value with
              shapes := recRemoveAll ed.stateStore.value.shapes sIds} ∧
       (ed.deleteShapes nodeIds).1.historyManager.history[
           ((ed.deleteShapes nodeIds).1.historyManager.currentIndex).toNat]?
         = some (mkDeleteShapeCommand ed.stateStore.value
             {ed.stateStore.value with
                shapes := recRemoveAll ed.stateStore.value.shapes sIds} sIds))) ∧
    (iIds.Nodup ∧
     (∀ id ∈ iIds, (recGet ed.stateStore.value.images id).isSome = true) ∧
     (iIds = [] → ed.deleteImages nodeIds = (ed, [])) ∧
     (iIds ≠ [] →
       (ed.deleteImages nodeIds).2 = iIds ∧
       (ed.deleteImages nodeIds).1.stateStore.selection = none ∧
       (ed.deleteImages nodeIds).1.stateStore.value
         = {ed.stateStore.value with
              images := recRemoveAll ed.stateStore.value.images iIds} ∧
       (ed.deleteImages nodeIds).1.historyManager.history[
           ((ed.deleteImages nodeIds).1.historyManager.currentIndex).toNat]?
         = some (mkDeleteShapeCommand ed.stateStore.value
             {ed.stateStore.value with
                images := recRemoveAll ed.stateStore.value.images iIds} iIds))) := by
  intro sIds iIds
  constructor
  · refine ⟨(uniqued_nodup nodeIds).filter _, fun id hid => (List.mem_filter.mp hid).2, ?_, ?_⟩
    · intro h
      have hemp : sIds.isEmpty = true := by
        rw [h]
        rfl
      simp only [DesignEditor.deleteShapes]
      rw [if_pos hemp]
    · intro hne
      have hemp : sIds.isEmpty = false := by
        cases hcase : sIds with
        | nil => exact absurd hcase hne
        | cons a t => rfl
      have hspec := HistoryManager.executeCommand_spec ed.historyManager
        (mkDeleteShapeCommand ed.stateStore.value
          {ed.stateStore.value with
             shapes := recRemoveAll ed.stateStore.value.shapes sIds} sIds) hwf
      have hred : ed.deleteShapes nodeIds
          = (⟨⟨(ed.historyManager.executeCommand
                (mkDeleteShapeCommand ed.stateStore.value
                  {ed.stateStore.value with
                     shapes := recRemoveAll ed.stateStore.value.shapes sIds} sIds)).2,
              none,
              (ed.historyManager.executeCommand
                (mkDeleteShapeCommand ed.stateStore.value
                  {ed.stateStore.value with
                     shapes := recRemoveAll ed.stateStore.value.shapes sIds} sIds)).1.canUndo,
              (ed.historyManager.executeCommand
                (mkDeleteShapeCommand ed.stateStore.value
                  {ed.stateStore.value with
                     shapes := recRemoveAll ed.stateStore.value.shapes sIds} sIds)).1.canRedo⟩,
             (ed.historyManager.executeCommand
                (mkDeleteShapeCommand ed.stateStore.value
                  {ed.stateStore.value with
                     shapes := recRemoveAll ed.stateStore.value.shapes sIds} sIds)).1⟩,
            sIds) := by
        simp only [DesignEditor.deleteShapes]
        rw [if_neg (by rw [hemp]; simp)]
      refine ⟨by rw [hred], by rw [hred], ?_, ?_⟩
      · rw [hred]
        show (ed.historyManager.executeCommand
          (mkDeleteShapeCommand ed.stateStore.value
            {ed.stateStore.value with
               shapes := recRemoveAll ed.stateStore.value.shapes sIds} sIds)).2 = _
        rw [HistoryManager.executeCommand_snd]
        simp [mkDeleteShapeCommand, mkBaseCommand, Command.execRes, deepClone_eq]
      · rw [hred]
        exact hspec.2.2.1
  · refine ⟨(uniqued_nodup nodeIds).filter _, fun id hid => (List.mem_filter.mp hid).2, ?_, ?_⟩
    · intro h
      have hemp : iIds.isEmpty = true := by
        rw [h]
        rfl
      simp only [DesignEditor.deleteImages]
      rw [if_pos hemp]
    · intro hne
      have hemp : iIds.isEmpty = false := by
        cases hcase : iIds with
        | nil => exact absurd hcase hne
        | cons a t => rfl
      have hspec := HistoryManager.executeCommand_spec ed.historyManager
        (mkDeleteShapeCommand ed.stateStore.value
          {ed.stateStore.value with
             images := recRemoveAll ed.stateStore.value.images iIds} iIds) hwf
      have hred : ed.deleteImages nodeIds
          = (⟨⟨(ed.historyManager.executeCommand
                (mkDeleteShapeCommand ed.stateStore.value
                  {ed.stateStore.value with
                     images := recRemoveAll ed.stateStore.value.images iIds} iIds)).2,
              none,
              (ed.historyManager.executeCommand
                (mkDeleteShapeCommand ed.stateStore.value
                  {ed.stateStore.value with
                     images := recRemoveAll ed.stateStore.value.images iIds} iIds)).1.canUndo,
              (ed.historyManager.executeCommand
                (mkDeleteShapeCommand ed.stateStore.value
                  {ed.stateStore.value with
                     images := recRemoveAll ed.stateStore.value.images iIds} iIds)).1.canRedo⟩,
             (ed.historyManager.executeCommand
                (mkDeleteShapeCommand ed.stateStore.value
                  {ed.stateStore.value with
                     images := recRemoveAll ed.stateStore.value.images iIds} iIds)).1⟩,
            iIds) := by
        simp only [DesignEditor.deleteImages]
        rw [if_neg (by rw [hemp]; simp)]
      refine ⟨by rw [hred], by rw [hred], ?_, ?_⟩
      · rw [hred]
        show (ed.historyManager.executeCommand
          (mkDeleteShapeCommand ed.stateStore.value
            {ed.stateStore.value with
               images := recRemoveAll ed.stateStore.value.images iIds} iIds)).2 = _
        rw [HistoryManager.executeCommand_snd]
        simp [mkDeleteShapeCommand, mkBaseCommand, Command.execRes, deepClone_eq]
      · rw [hred]
        exact hspec.2.2.1

/-- Witness for C6: deleting `["s1", "s1", "i1", "zz"]` on the concrete
editor dedups and filters to `["s1"]` for shapes and `["i1"]` for images,
and clears the selection. -/
theorem claim_C6_witness :
    edFix.historyManager.WellFormed ∧
    ((edFix.deleteShapes ["s1", "s1", "i1", "zz"]).2
        = (uniqued ["s1", "s1", "i1", "zz"]).filter
            (fun id => (recGet edFix.stateStore.value.shapes id).isSome) ∧
     (edFix.deleteShapes ["s1", "s1", "i1", "zz"]).1.stateStore.selection = none ∧
     (edFix.deleteImages ["s1", "s1", "i1", "zz"]).2
        = (uniqued ["s1", "s1", "i1", "zz"]).filter
            (fun id => (recGet edFix.stateStore.value.images id).isSome)) :=
  ⟨by decide,
   let h := claim_C6_delete_dedup_filter_history_selection edFix
     ["s1", "s1", "i1", "zz"] (by decide)
   ⟨(h.1.2.2.2 (by decide)).1, (h.1.2.2.2 (by decide)).2.1, (h.2.2.2.2 (by decide)).1⟩⟩

/-- C7 counterexample: the claim says a supplied position coordinate of 0 is
used.  `createShape` tests the coordinate with JavaScript truthiness
(`payload.left ? {left} : null`), so on the concrete 800x600 editor a 10x10
shape created with left = 0, top = 0 gets the centred left
`800 / 2 - 10 / 2 = 395`, not 0. -/
theorem claim_C7_counterexample :
    (recGet (edFix.createShape "sx" ⟨some 0, some 0, 10, 10, vboxFix, []⟩).1.stateStore.value.shapes
        "sx").map (fun s => s.bounds.left) = some ((800 : ℚ) / 2 - 10 / 2) ∧
    (800 : ℚ) / 2 - 10 / 2 = 395 ∧
    ¬ ((395 : ℚ) = 0) :=
  ⟨rfl, by norm_num, by norm_num⟩

/-- C7 (amended): every create operation assigns the passed fresh id, wraps
the document transition in a historied create Command, sets the selection
to the new id, and returns the id; an omitted position centres the entity on
the canvas.  A supplied position is honoured by `createImage` even at
coordinate 0 (nullish coalescing) and by `createText` always, but by
`createShape` only when the coordinate is nonzero: `createShape` tests the
coordinate with truthiness, so a supplied 0 falls back to centring. -/
theorem claim_C7_create_assigns_id_centers_selects
    (ed : DesignEditor) (nodeId : String) (sp : CreateShapePayload)
    (ip : CreateImagePayload) (tp : CreateTextPayload)
    (hwf : ed.historyManager.WellFormed) :
    ((ed.createShape nodeId sp).2 = nodeId ∧
     (ed.createShape nodeId sp).1.stateStore.selection = some ⟨nodeId⟩ ∧
     recGet (ed.createShape nodeId sp).1.stateStore.value.shapes nodeId
       = some (DesignEditor.newShapeOf ed.stateStore.value nodeId sp) ∧
     (ed.createShape nodeId sp).1.stateStore.value
       = {ed.stateStore.value with
            shapes := recSet ed.stateStore.value.shapes nodeId
              (DesignEditor.newShapeOf ed.stateStore.value nodeId sp)} ∧
     (ed.createShape nodeId sp).1.historyManager.history[
         ((ed.createShape nodeId sp).1.historyManager.currentIndex).toNat]?
       = some (mkCreateShapeCommand ed.stateStore.value
           {ed.stateStore.value with
              shapes := recSet ed.stateStore.value.shapes nodeId
                (DesignEditor.newShapeOf ed.stateStore.value nodeId sp)} nodeId) ∧
     ((sp.left = none ∨ sp.left = some 0) →
        (DesignEditor.newShapeOf ed.stateStore.value nodeId sp).bounds.left
          = ed.stateStore.value.attributes.width / 2 - sp.width / 2) ∧
     (∀ x, sp.left = some x → x ≠ 0 →
        (DesignEditor.newShapeOf ed.stateStore.value nodeId sp).bounds.left = x) ∧
     ((sp.top = none ∨ sp.top = some 0) →
        (DesignEditor.newShapeOf ed.stateStore.value nodeId sp).bounds.top
          = ed.stateStore.value.attributes.height / 2 - sp.height / 2) ∧
     (∀ x, sp.top = some x → x ≠ 0 →
        (DesignEditor.newShapeOf ed.stateStore.value nodeId sp).bounds.top = x)) ∧
    ((ed.createImage nodeId ip).2 = nodeId ∧
     (ed.createImage nodeId ip).1.stateStore.selection = some ⟨nodeId⟩ ∧
     recGet (ed.createImage nodeId ip).1.stateStore.value.images nodeId
       = some (DesignEditor.newImageOf ed.stateStore.value nodeId ip) ∧
     (ed.createImage nodeId ip).1.historyManager.history[
         ((ed.createImage nodeId ip).1.historyManager.currentIndex).toNat]?
       = some (mkCreateShapeCommand ed.stateStore.value
           {ed.stateStore.value with
              images := recSet ed.stateStore.value.images nodeId
                (DesignEditor.newImageOf ed.stateStore.value nodeId ip)} nodeId) ∧
     (∀ x, ip.left = some x →
        (DesignEditor.newImageOf ed.stateStore.value nodeId ip).bounds.left = x) ∧
     (ip.left = none →
        (DesignEditor.newImageOf ed.stateStore.value nodeId ip).bounds.left
          = ed.stateStore.value.attributes.width / 2 - ip.width / 2) ∧
     (∀ x, ip.top = some x →
        (DesignEditor.newImageOf ed.stateStore.value nodeId ip).bounds.top = x) ∧
     (ip.top = none →
        (DesignEditor.newImageOf ed.stateStore.value nodeId ip).bounds.top
          = ed.stateStore.value.attributes.height / 2 - ip.height / 2)) ∧
    ((ed.createText nodeId tp).2 = nodeId ∧
     (ed.createText nodeId tp).1.stateStore.selection = some ⟨nodeId⟩ ∧
     recGet (ed.createText nodeId tp).1.stateStore.value.texts nodeId
       = some (DesignEditor.newTextOf nodeId tp) ∧
     (ed.createText nodeId tp).1.historyManager.history[
         ((ed.createText nodeId tp).1.historyManager.currentIndex).toNat]?
       = some (mkCreateShapeCommand ed.stateStore.value
           {ed.stateStore.value with
              texts := recSet ed.stateStore.value.texts nodeId
                (DesignEditor.newTextOf nodeId tp)} nodeId) ∧
     (DesignEditor.newTextOf nodeId tp).bounds.left = tp.left ∧
     (DesignEditor.newTextOf nodeId tp).bounds.top = tp.top) := by
  refine ⟨⟨rfl, rfl, ?_, ?_, ?_, ?_, ?_, ?_, ?_⟩,
          ⟨rfl, rfl, ?_, ?_, ?_, ?_, ?_, ?_⟩,
          ⟨rfl, rfl, ?_, ?_, rfl, rfl⟩⟩
  · show recGet ((ed.historyManager.executeCommand _).2).shapes nodeId = _
    rw [HistoryManager.executeCommand_snd]
    simp only [Command.execRes, mkCreateShapeCommand, mkBaseCommand, deepClone_eq]
    exact recGet_recSet_self _ _ _
  · show (ed.historyManager.executeCommand _).2 = _
    rw [HistoryManager.executeCommand_snd]
    simp [Command.execRes, mkCreateShapeCommand, mkBaseCommand, deepClone_eq]
  · exact (HistoryManager.executeCommand_spec ed.historyManager _ hwf).2.2.1
  · rintro (h | h) <;>
      simp [DesignEditor.newShapeOf, DesignEditor.getShapeBoundsInCenter, h]
  · intro x hx hne
    simp [DesignEditor.newShapeOf, DesignEditor.getShapeBoundsInCenter, hx, hne]
  · rintro (h | h) <;>
      simp [DesignEditor.newShapeOf, DesignEditor.getShapeBoundsInCenter, h]
  · intro x hx hne
    simp [DesignEditor.newShapeOf, DesignEditor.getShapeBoundsInCenter, hx, hne]
  · show recGet ((ed.historyManager.executeCommand _).2).images nodeId = _
    rw [HistoryManager.executeCommand_snd]
    simp only [Command.execRes, mkCreateShapeCommand, mkBaseCommand, deepClone_eq]
    exact recGet_recSet_self _ _ _
  · exact (HistoryManager.executeCommand_spec ed.historyManager _ hwf).2.2.1
  · intro x hx
    simp [DesignEditor.newImageOf, hx]
  · intro h
    simp [DesignEditor.newImageOf, h]
  · intro x hx
    simp [DesignEditor.newImageOf, hx]
  · intro h
    simp [DesignEditor.newImageOf, h]
  · show recGet ((ed.historyManager.executeCommand _).2).texts nodeId = _
    rw [HistoryManager.executeCommand_snd]
    simp only [Command.execRes, mkCreateShapeCommand, mkBaseCommand, deepClone_eq]
    exact recGet_recSet_self _ _ _
  · exact (HistoryManager.executeCommand_spec ed.historyManager _ hwf).2.2.1

/-- Witness for C7 (amended): on the concrete editor, `createShape` with
left = 7 honours the nonzero coordinate, `createImage` with left = 0
honours the zero coordinate, and both select and return the fresh id. -/
theorem claim_C7_witness :
    edFix.historyManager.WellFormed ∧
    ((edFix.createShape "nw" spFix).2 = "nw" ∧
     (edFix.createShape "nw" spFix).1.stateStore.selection = some ⟨"nw"⟩ ∧
     (DesignEditor.newShapeOf docFix "nw" spFix).bounds.left = 7 ∧
     (DesignEditor.newImageOf docFix "nw" ipFix).bounds.left = 0 ∧
     (edFix.createImage "nw" ipFix).2 = "nw") :=
  ⟨by decide,
   let h := claim_C7_create_assigns_id_centers_selects edFix "nw" spFix ipFix tpFix (by decide)
   ⟨h.1.1, h.1.2.1, h.1.2.2.2.2.2.2.1 7 rfl (by decide), h.2.1.2.2.2.2.1 0 rfl, h.2.1.1⟩⟩

/-- `updateShapePaths` on a single present id: the updater's result is
written back under its own id, the store keeps the selection, and the whole
call succeeds. -/
theorem updateShapePaths_single (ed : DesignEditor) (id : String) (shape s' : ShapeDef)
    (stroke : Js3 StrokeSpec) (fill : Js3 ShapeFill)
    (hget : recGet ed.stateStore.value.shapes id = some shape)
    (hupd : updateShapePathsUpdater stroke fill (some shape) = .ok s') :
    ∃ ed', ed.updateShapePaths [id] stroke fill = .ok ed' ∧
      ed'.stateStore.value
        = {ed.stateStore.value with
             shapes := recSet ed.stateStore.value.shapes s'.id s'} ∧
      ed'.stateStore.selection = ed.stateStore.selection := by
  have hmap : exceptMapList
      (fun i => updateShapePathsUpdater stroke fill (recGet ed.stateStore.value.shapes i))
      [id] = Except.ok [s'] := by
    simp only [exceptMapList]
    rw [hget, hupd]
    rfl
  have hus : DesignEditor.updateShapes ed.stateStore.value [id]
        (updateShapePathsUpdater stroke fill)
      = Except.ok
          ({ed.stateStore.value with
              shapes := recSet ed.stateStore.value.shapes s'.id s'}, [s'.id]) := by
    simp only [DesignEditor.updateShapes]
    rw [hmap]
    rfl
  refine ⟨⟨⟨cleanUndefinedValues
      (ed.historyManager.executeCommand
        (mkUpdateShapeCommand ed.stateStore.value
          {ed.stateStore.value with shapes := recSet ed.stateStore.value.shapes s'.id s'}
          [id]
          (match stroke with
           | Js3.undef => (match fill with
                           | Js3.null => "Remove fill"
                           | _ => "Update fill")
           | Js3.null => "Remove stroke"
           | Js3.val _ => "Update stroke"))).2,
      ed.stateStore.selection,
      (ed.historyManager.executeCommand
        (mkUpdateShapeCommand ed.stateStore.value
          {ed.stateStore.value with shapes := recSet ed.stateStore.value.shapes s'.id s'}
          [id]
          (match stroke with
           | Js3.undef => (match fill with
                           | Js3.null => "Remove fill"
                           | _ => "Update fill")
           | Js3.null => "Remove stroke"
           | Js3.val _ => "Update stroke"))).1.canUndo,
      (ed.historyManager.executeCommand
        (mkUpdateShapeCommand ed.stateStore.value
          {ed.stateStore.value with shapes := recSet ed.stateStore.value.shapes s'.id s'}
          [id]
          (match stroke with
           | Js3.undef => (match fill with
                           | Js3.null => "Remove fill"
                           | _ => "Update fill")
           | Js3.null => "Remove stroke"
           | Js3.val _ => "Update stroke"))).1.canRedo⟩,
      (ed.historyManager.executeCommand
        (mkUpdateShapeCommand ed.stateStore.value
          {ed.stateStore.value with shapes := recSet ed.stateStore.value.shapes s'.id s'}
          [id]
          (match stroke with
           | Js3.undef => (match fill with
                           | Js3.null => "Remove fill"
                           | _ => "Update fill")
           | Js3.null => "Remove stroke"
           | Js3.val _ => "Update stroke"))).1⟩, ?_, ?_, rfl⟩
  · simp only [DesignEditor.updateShapePaths]
    rw [hus]
    rfl
  · show cleanUndefinedValues (ed.historyManager.executeCommand _).2 = _
    rw [cleanUndefinedValues_eq, HistoryManager.executeCommand_snd]
    simp [Command.execRes, mkUpdateShapeCommand, mkBaseCommand, deepClone_eq]

/-- C8 (amended): for a present shape, disabling stroke (explicit null, fill
untouched) copies the color and weight of the first path's current stroke
into `rememberedStroke` — falsy color/weight replaced by the defaults
`#000000`/4, any `dasharray` not carried over — removes the stroke property
from every path, and injects the default fill `{#f8f9fa}` exactly into the
paths left with neither stroke nor fill.  Disabling fill alone performs no
such injection: every path simply loses its fill and keeps its stroke. -/
theorem claim_C8_disable_stroke_memory (ed : DesignEditor) (id : String) (shape : ShapeDef)
    (hget : recGet ed.stateStore.value.shapes id = some shape)
    (hid : shape.id = id) :
    (∃ ed1 s1, ed.updateShapePaths [id] Js3.null Js3.undef = .ok ed1 ∧
       recGet ed1.stateStore.value.shapes id = some s1 ∧
       s1.rememberedStroke
         = (match shape.paths.head? with
            | some p0 => (match p0.stroke with
                          | some cs => some ⟨jsStrOr cs.color defaultStrokeColor,
                                             jsNumOr cs.weight defaultStrokeWeight, none⟩
                          | none => shape.rememberedStroke)
            | none => shape.rememberedStroke) ∧
       s1.paths = shape.paths.map (fun p =>
         ⟨p.d, none, if p.fill.isNone then some ⟨"#f8f9fa"⟩ else p.fill⟩) ∧
       (∀ p ∈ s1.paths, p.stroke = none)) ∧
    (∃ ed2 s2, ed.updateShapePaths [id] Js3.undef Js3.null = .ok ed2 ∧
       recGet ed2.stateStore.value.shapes id = some s2 ∧
       s2.paths = shape.paths.map (fun p => ⟨p.d, p.stroke, none⟩)) := by
  subst hid
  constructor
  · have hupd1 : updateShapePathsUpdater Js3.null Js3.undef (some shape)
        = .ok {shape with
            rememberedStroke :=
              (match shape.paths.head? with
               | some p0 => (match p0.stroke with
                             | some cs => some ⟨jsStrOr cs.color defaultStrokeColor,
                                                jsNumOr cs.weight defaultStrokeWeight, none⟩
                             | none => shape.rememberedStroke)
               | none => shape.rememberedStroke),
            paths := shape.paths.map (fun p =>
              ⟨p.d, none, if p.fill.isNone then some ⟨"#f8f9fa"⟩ else p.fill⟩)} := by
      simp [updateShapePathsUpdater, Js3.isNull]
    obtain ⟨ed1, hcall, hval, hsel⟩ :=
      updateShapePaths_single ed shape.id shape _ Js3.null Js3.undef hget hupd1
    refine ⟨ed1,
      {shape with
         rememberedStroke :=
           (match shape.paths.head? with
            | some p0 => (match p0.stroke with
                          | some cs => some ⟨jsStrOr cs.color defaultStrokeColor,
                                             jsNumOr cs.weight defaultStrokeWeight, none⟩
                          | none => shape.rememberedStroke)
            | none => shape.rememberedStroke),
         paths := shape.paths.map (fun p =>
           ⟨p.d, none, if p.fill.isNone then some ⟨"#f8f9fa"⟩ else p.fill⟩)},
      hcall, ?_, rfl, rfl, ?_⟩
    · rw [hval]
      exact recGet_recSet_self _ _ _
    · intro p hp
      obtain ⟨q, _, rfl⟩ := List.mem_map.mp hp
      rfl
  · have hupd2 : updateShapePathsUpdater Js3.undef Js3.null (some shape)
        = .ok {shape with
            rememberedFill :=
              (match shape.paths.head? with
               | some p0 => (match p0.fill with
                             | some f => some f
                             | none => shape.rememberedFill)
               | none => shape.rememberedFill),
            paths := shape.paths.map (fun p => ⟨p.d, p.stroke, none⟩)} := by
      simp [updateShapePathsUpdater, Js3.isNull]
    obtain ⟨ed2, hcall, hval, hsel⟩ :=
      updateShapePaths_single ed shape.id shape _ Js3.undef Js3.null hget hupd2
    refine ⟨ed2,
      {shape with
         rememberedFill :=
           (match shape.paths.head? with
            | some p0 => (match p0.fill with
                          | some f => some f
                          | none => shape.rememberedFill)
            | none => shape.rememberedFill),
         paths := shape.paths.map (fun p => ⟨p.d, p.stroke, none⟩)},
      hcall, ?_, rfl⟩
    rw [hval]
    exact recGet_recSet_self _ _ _

/-- C2 (amended): for a shape whose first path has stroke `{#ff0000, 5}`,
disabling stroke stores `{#ff0000, 5}` in `rememberedStroke`; but calling
`updateShapePaths` again with a stroke spec supplying no explicit color or
weight writes the default `{#000000, 4}` to every path and overwrites
`rememberedStroke` with the default as well — the remembered configuration
is not restored by `updateShapePaths` itself; restoring it requires the
caller to pass the remembered values explicitly (as the RightPanel UI
does). -/
theorem claim_C2_style_memory_not_restored (ed : DesignEditor) (id : String)
    (shape : ShapeDef) (p0 : ShapePath) (rest : List ShapePath) (dash : Option (ℚ × ℚ))
    (hget : recGet ed.stateStore.value.shapes id = some shape)
    (hid : shape.id = id)
    (hpaths : shape.paths = p0 :: rest)
    (hstroke : p0.stroke = some ⟨"#ff0000", 5, dash⟩) :
    ∃ ed1 s1 ed2 s2,
      ed.updateShapePaths [id] Js3.null Js3.undef = .ok ed1 ∧
      recGet ed1.stateStore.value.shapes id = some s1 ∧
      s1.rememberedStroke = some ⟨"#ff0000", 5, none⟩ ∧
      ed1.updateShapePaths [id] (Js3.val ⟨none, none, none⟩) Js3.undef = .ok ed2 ∧
      recGet ed2.stateStore.value.shapes id = some s2 ∧
      s2.paths.length = shape.paths.length ∧
      (∀ p ∈ s2.paths, p.stroke = some ⟨"#000000", 4, none⟩) ∧
      s2.rememberedStroke = some ⟨"#000000", 4, none⟩ := by
  subst hid
  have h5 : ¬ ((5 : ℚ) = 0) := by decide
  have hupd1 : updateShapePathsUpdater Js3.null Js3.undef (some shape)
      = .ok {shape with
          rememberedStroke := some ⟨"#ff0000", 5, none⟩,
          paths := (p0 :: rest).map (fun p =>
            ⟨p.d, none, if p.fill.isNone then some ⟨"#f8f9fa"⟩ else p.fill⟩)} := by
    simp [updateShapePathsUpdater, Js3.isNull, hpaths, hstroke, jsStrOr, jsNumOr, h5,
      defaultStrokeColor, defaultStrokeWeight]
  obtain ⟨ed1, hcall1, hval1, hsel1⟩ :=
    updateShapePaths_single ed shape.id shape _ Js3.null Js3.undef hget hupd1
  have hlook1 : recGet ed1.stateStore.value.shapes shape.id
      = some {shape with
          rememberedStroke := some ⟨"#ff0000", 5, none⟩,
          paths := (p0 :: rest).map (fun p =>
            ⟨p.d, none, if p.fill.isNone then some ⟨"#f8f9fa"⟩ else p.fill⟩)} := by
    rw [hval1]
    exact recGet_recSet_self _ _ _
  have hupd2 : updateShapePathsUpdater (Js3.val ⟨none, none, none⟩) Js3.undef
      (some {shape with
          rememberedStroke := some ⟨"#ff0000", 5, none⟩,
          paths := (p0 :: rest).map (fun p =>
            ⟨p.d, none, if p.fill.isNone then some ⟨"#f8f9fa"⟩ else p.fill⟩)})
      = .ok {shape with
          rememberedStroke := some ⟨"#000000", 4, none⟩,
          paths := ((p0 :: rest).map (fun p =>
            (⟨p.d, none, if p.fill.isNone then some ⟨"#f8f9fa"⟩ else p.fill⟩ : ShapePath))).map
              (fun p => (⟨p.d, some ⟨"#000000", 4, none⟩, p.fill⟩ : ShapePath))} := by
    simp [updateShapePathsUpdater, Js3.isNull, jsStrOptOr, jsNumOptOr,
      defaultStrokeColor, defaultStrokeWeight]
  obtain ⟨ed2, hcall2, hval2, hsel2⟩ :=
    updateShapePaths_single ed1 shape.id _ _ (Js3.val ⟨none, none, none⟩) Js3.undef
      hlook1 hupd2
  have hlook2 : recGet ed2.stateStore.value.shapes shape.id
      = some {shape with
          rememberedStroke := some ⟨"#000000", 4, none⟩,
          paths := ((p0 :: rest).map (fun p =>
            (⟨p.d, none, if p.fill.isNone then some ⟨"#f8f9fa"⟩ else p.fill⟩ : ShapePath))).map
              (fun p => (⟨p.d, some ⟨"#000000", 4, none⟩, p.fill⟩ : ShapePath))} := by
    rw [hval2]
    exact recGet_recSet_self _ _ _
  refine ⟨ed1, _, ed2, _, hcall1, hlook1, rfl, hcall2, hlook2, ?_, ?_, rfl⟩
  · show (((p0 :: rest).map _).map _).length = shape.paths.length
    rw [hpaths]
    simp
  · intro p hp
    obtain ⟨q, _, rfl⟩ := List.mem_map.mp hp
    rfl

/-- C2 counterexample: on the concrete shape whose only path has stroke
`{#ff0000, 5}`, disabling stroke and re-enabling it with a spec supplying no
explicit color or weight leaves the path with the default stroke
`{#000000, 4}` — not the remembered `{#ff0000, 5}` the claim promises. -/
theorem claim_C2_counterexample :
    ((edFix.updateShapePaths ["s1"] Js3.null Js3.undef).bind
       (fun ed1 => ed1.updateShapePaths ["s1"] (Js3.val ⟨none, none, none⟩) Js3.undef)).map
      (fun ed2 => (recGet ed2.stateStore.value.shapes "s1").map
        (fun s => s.paths.map (fun p => p.stroke)))
    = Except.ok (some [some ⟨"#000000", 4, none⟩]) ∧
    (some (⟨"#000000", 4, none⟩ : ShapeStroke) ≠ some (⟨"#ff0000", 5, none⟩ : ShapeStroke)) :=
  ⟨rfl, by decide⟩

/-- Witness for C2 (amended): the concrete shape `s1` with stroke
`{#ff0000, 5}`; after disable + re-enable with an empty spec the stroke is
the default `{#000000, 4}` and the remembered value was `{#ff0000, 5}` in
between. -/
theorem claim_C2_witness :
    (recGet edFix.stateStore.value.shapes "s1" = some shapeRed ∧
     shapeRed.id = "s1" ∧ shapeRed.paths = [pathRed] ∧
     pathRed.stroke = some ⟨"#ff0000", 5, none⟩) ∧
    (∃ ed1 s1 ed2 s2,
      edFix.updateShapePaths ["s1"] Js3.null Js3.undef = .ok ed1 ∧
      recGet ed1.stateStore.value.shapes "s1" = some s1 ∧
      s1.rememberedStroke = some ⟨"#ff0000", 5, none⟩ ∧
      ed1.updateShapePaths ["s1"] (Js3.val ⟨none, none, none⟩) Js3.undef = .ok ed2 ∧
      recGet ed2.stateStore.value.shapes "s1" = some s2 ∧
      s2.paths.length = shapeRed.paths.length ∧
      (∀ p ∈ s2.paths, p.stroke = some ⟨"#000000", 4, none⟩) ∧
      s2.rememberedStroke = some ⟨"#000000", 4, none⟩) :=
  ⟨⟨rfl, rfl, rfl, rfl⟩,
   claim_C2_style_memory_not_restored edFix "s1" shapeRed pathRed [] none
     rfl rfl rfl rfl⟩

/-- C8 counterexample: the claim says the first path's current stroke is
copied into `rememberedStroke`.  On the concrete shape `s2` whose stroke is
`{#ff0000, 5, dasharray := (2, 2)}`, disabling stroke remembers
`{#ff0000, 5}` without the dasharray — not a copy of the current stroke. -/
theorem claim_C8_counterexample :
    (edFix.updateShapePaths ["s2"] Js3.null Js3.undef).map
      (fun ed1 => (recGet ed1.stateStore.value.shapes "s2").map
        (fun s => s.rememberedStroke))
    = Except.ok (some (some ⟨"#ff0000", 5, none⟩)) ∧
    pathDash.stroke = some ⟨"#ff0000", 5, some (2, 2)⟩ ∧
    (some (⟨"#ff0000", 5, none⟩ : ShapeStroke) ≠ some (⟨"#ff0000", 5, some (2, 2)⟩ : ShapeStroke)) :=
  ⟨rfl, rfl, by decide⟩

/-- Witness for C8 (amended): disabling stroke on the concrete dashed shape
`s2` remembers color/weight `{#ff0000, 5}` and strips the stroke from every
path. -/
theorem claim_C8_witness :
    (recGet edFix.stateStore.value.shapes "s2" = some shapeDash ∧ shapeDash.id = "s2") ∧
    (∃ ed1 s1, edFix.updateShapePaths ["s2"] Js3.null Js3.undef = .ok ed1 ∧
       recGet ed1.stateStore.value.shapes "s2" = some s1 ∧
       s1.rememberedStroke = some ⟨"#ff0000", 5, none⟩ ∧
       (∀ p ∈ s1.paths, p.stroke = none)) :=
  ⟨⟨rfl, rfl⟩, by
    obtain ⟨⟨ed1, s1, hcall, hlook, hrs, hpaths, hnos⟩, _⟩ :=
      claim_C8_disable_stroke_memory edFix "s2" shapeDash rfl rfl
    refine ⟨ed1, s1, hcall, hlook, ?_, hnos⟩
    rw [hrs]
    rfl⟩
